import Mathlib

/-!
Verification of the DGTile VTK export subsystem (`src/dgt_vtk.cpp`).

The file shallowly embeds the writers of `dgt::vtk`:
* the binary array encoder `write_data` (zlib deflate + base64 + 4×uint64 header),
* the per-axis coordinate generator `write_coordinate`,
* the extent emitters `write_vtr_rectilinear_start` / `write_piece_start`,
* the manifest writer `write_vtm`,
* the tree writers `write_tree_offsets`, `write_tree_connectivity`,
  `write_tree_coords`, `write_leaf_depths`, `write_leaf_ijks`, `write_tree`.

Streams (C++ `std::stringstream` contents) are modelled as `List Char`;
byte buffers as `List ℕ` of values `< 256`; real arithmetic on coordinates
as exact `ℚ` arithmetic (the C++ code computes in `double`).  External
collaborators that are not part of `dgt_vtk.cpp` (the zlib backend, the
`base64` helper, `get_block_domain`, the tree traversal) are modelled as
parameters or, where the spec pins them down, as definitions marked
`Modelled from the spec`.
-/

set_option maxRecDepth 100000

namespace DgtVtk

/-- Character list of a string literal (stream fragments are `List Char`). -/
def lit (s : String) : List Char := s.data

/-- The eight bytes of a 64-bit unsigned integer, least significant byte
first (the in-memory layout of `std::uint64_t` on the little-endian hosts
the code targets); a value is taken modulo 2^64 by construction. -/
def u64le (n : ℕ) : List ℕ :=
  [n % 256, n / 2^8 % 256, n / 2^16 % 256, n / 2^24 % 256,
   n / 2^32 % 256, n / 2^40 % 256, n / 2^48 % 256, n / 2^56 % 256]

theorem u64le_length (n : ℕ) : (u64le n).length = 8 := rfl

theorem u64le_lt (n : ℕ) : ∀ b ∈ u64le n, b < 256 := by
  intro b hb
  simp only [u64le, List.mem_cons, List.not_mem_nil, or_false] at hb
  rcases hb with h | h | h | h | h | h | h | h <;> subst h <;> omega

/-- Modelled from the spec: the `base64` helper used by `write_data` is not
under `src/`; this is the standard base64 alphabet it implements. -/
def b64Char (n : ℕ) : Char :=
  if n < 26 then Char.ofNat (65 + n)
  else if n < 52 then Char.ofNat (97 + (n - 26))
  else if n < 62 then Char.ofNat (48 + (n - 52))
  else if n = 62 then '+'
  else '/'

/-- Inverse of the base64 alphabet (used to state the round-trip claim). -/
def b64Index (c : Char) : Option ℕ :=
  if 'A' ≤ c ∧ c ≤ 'Z' then some (c.toNat - 65)
  else if 'a' ≤ c ∧ c ≤ 'z' then some (c.toNat - 97 + 26)
  else if '0' ≤ c ∧ c ≤ '9' then some (c.toNat - 48 + 52)
  else if c = '+' then some 62
  else if c = '/' then some 63
  else none

theorem b64Index_b64Char : ∀ n : Fin 64, b64Index (b64Char n.val) = some n.val := by
  decide

/-- Modelled from the spec: standard base64 encoding of a byte buffer,
three bytes to four alphabet characters, `'='`-padded. -/
def base64Encode : List ℕ → List Char
  | [] => []
  | [a] => [b64Char (a / 4), b64Char (a % 4 * 16), '=', '=']
  | [a, b] => [b64Char (a / 4), b64Char (a % 4 * 16 + b / 16), b64Char (b % 16 * 4), '=']
  | a :: b :: c :: rest =>
      b64Char (a / 4) :: b64Char (a % 4 * 16 + b / 16) ::
      b64Char (b % 16 * 4 + c / 64) :: b64Char (c % 64) :: base64Encode rest

/-- Standard base64 decoding, the inverse direction of `base64Encode`. -/
def base64Decode : List Char → Option (List ℕ)
  | [] => some []
  | c1 :: c2 :: c3 :: c4 :: rest => do
      let s1 ← b64Index c1
      let s2 ← b64Index c2
      if c3 = '=' then
        if c4 = '=' ∧ rest = [] then some [s1 * 4 + s2 / 16] else none
      else do
        let s3 ← b64Index c3
        if c4 = '=' then
          if rest = [] then some [s1 * 4 + s2 / 16, s2 % 16 * 16 + s3 / 4] else none
        else do
          let s4 ← b64Index c4
          let r ← base64Decode rest
          some ((s1 * 4 + s2 / 16) :: (s2 % 16 * 16 + s3 / 4) :: (s3 % 4 * 64 + s4) :: r)
  | _ => none

theorem b64Index_b64Char_lt {n : ℕ} (h : n < 64) : b64Index (b64Char n) = some n :=
  b64Index_b64Char ⟨n, h⟩

theorem b64Char_ne_pad {n : ℕ} (h : n < 64) : ¬ (b64Char n = '=') := by
  intro he
  have h1 := b64Index_b64Char_lt h
  rw [he] at h1
  have h2 : b64Index '=' = none := by decide
  rw [h2] at h1
  exact Option.noConfusion h1

theorem mulAdd_div {k : ℕ} (x y : ℕ) (hk : 0 < k) (hy : y < k) : (x * k + y) / k = x := by
  rw [Nat.mul_comm x k, Nat.mul_add_div hk, Nat.div_eq_of_lt hy]
  omega

theorem mulAdd_mod {k : ℕ} (x y : ℕ) (hy : y < k) : (x * k + y) % k = y := by
  rw [Nat.mul_comm x k, Nat.mul_add_mod, Nat.mod_eq_of_lt hy]

/-- Decoding inverts encoding on every byte buffer. -/
theorem base64_decode_encode (l : List ℕ) (hl : ∀ x ∈ l, x < 256) :
    base64Decode (base64Encode l) = some l := by
  induction l using base64Encode.induct with
  | case1 => rfl
  | case2 a =>
      have ha : a < 256 := hl a (by simp)
      have h1 : a / 4 < 64 := by omega
      have h2 : a % 4 * 16 < 64 := by omega
      have e1 : a % 4 * 16 / 16 = a % 4 := Nat.mul_div_cancel _ (by norm_num)
      simp [base64Encode, base64Decode, b64Index_b64Char_lt h1, b64Index_b64Char_lt h2, e1]
      omega
  | case3 a b =>
      have ha : a < 256 := hl a (by simp)
      have hb : b < 256 := hl b (by simp)
      have h1 : a / 4 < 64 := by omega
      have h2 : a % 4 * 16 + b / 16 < 64 := by omega
      have h3 : b % 16 * 4 < 64 := by omega
      have e1 : (a % 4 * 16 + b / 16) / 16 = a % 4 :=
        mulAdd_div (a % 4) (b / 16) (by norm_num) (by omega)
      have e2 : (a % 4 * 16 + b / 16) % 16 = b / 16 :=
        mulAdd_mod (a % 4) (b / 16) (by omega)
      have e3 : b % 16 * 4 / 4 = b % 16 := Nat.mul_div_cancel _ (by norm_num)
      simp [base64Encode, base64Decode, b64Index_b64Char_lt h1, b64Index_b64Char_lt h2,
        b64Index_b64Char_lt h3, b64Char_ne_pad h3, e1, e2, e3]
      omega
  | case4 a b c rest ih =>
      have ha : a < 256 := hl a (by simp)
      have hb : b < 256 := hl b (by simp)
      have hc : c < 256 := hl c (by simp)
      have h1 : a / 4 < 64 := by omega
      have h2 : a % 4 * 16 + b / 16 < 64 := by omega
      have h3 : b % 16 * 4 + c / 64 < 64 := by omega
      have h4 : c % 64 < 64 := by omega
      have e1 : (a % 4 * 16 + b / 16) / 16 = a % 4 :=
        mulAdd_div (a % 4) (b / 16) (by norm_num) (by omega)
      have e2 : (a % 4 * 16 + b / 16) % 16 = b / 16 :=
        mulAdd_mod (a % 4) (b / 16) (by omega)
      have e4 : (b % 16 * 4 + c / 64) / 4 = b % 16 :=
        mulAdd_div (b % 16) (c / 64) (by norm_num) (by omega)
      have e5 : (b % 16 * 4 + c / 64) % 4 = c / 64 :=
        mulAdd_mod (b % 16) (c / 64) (by omega)
      have hrest : base64Decode (base64Encode rest) = some rest := by
        apply ih
        intro x hx
        exact hl x (by simp [hx])
      simp [base64Encode, base64Decode, b64Index_b64Char_lt h1, b64Index_b64Char_lt h2,
        b64Index_b64Char_lt h3, b64Index_b64Char_lt h4, b64Char_ne_pad h3,
        b64Char_ne_pad h4, e1, e2, e4, e5, hrest]
      omega

/-- `write_data` (dgt_vtk.cpp:142-164).  The zlib backend (`::compress2`) is
external, so it enters as the parameter `compress`; `none` models a non-`Z_OK`
return.  `raw` is the host-resident byte buffer (`sizeof(T) * field.size()`
bytes), `stream` the stringstream contents before the call.  The result is
the flag "no exception was thrown" paired with the stream contents after the
call; the code throws before any of its three `stream.write` calls, so on
failure the stream is returned untouched. -/
def write_data (compress : List ℕ → Option (List ℕ)) (raw : List ℕ)
    (stream : List Char) : Bool × List Char :=
  match compress raw with
  | none => (false, stream)
  | some comp =>
      let encoded := base64Encode comp
      let header := u64le 1 ++ u64le raw.length ++ u64le raw.length ++ u64le comp.length
      let enc_header := base64Encode header
      (true, stream ++ enc_header ++ encoded ++ ['\n'])

/-- C1: for every host-resident array of `rawBytes` bytes passed to
`write_data`, the emitted output is exactly base64 of the 32-byte header of
four 64-bit unsigned integers `{1, rawBytes, rawBytes, compressedBytes}`,
immediately concatenated with no delimiter with base64 of the deflated
payload, followed by a single newline character. -/
theorem write_data_output_format (compress : List ℕ → Option (List ℕ))
    (raw comp : List ℕ) (stream : List Char) (hc : compress raw = some comp) :
    write_data compress raw stream =
      (true, stream ++
        base64Encode (u64le 1 ++ u64le raw.length ++ u64le raw.length ++ u64le comp.length) ++
        base64Encode comp ++ ['\n'])
    ∧ (u64le 1 ++ u64le raw.length ++ u64le raw.length ++ u64le comp.length).length = 32 := by
  refine ⟨?_, ?_⟩
  · simp [write_data, hc]
  · simp [u64le]

/-- Witness for C1 at the one-byte buffer `[65]` and an identity backend. -/
theorem write_data_output_format_witness :
    write_data (fun l => some l) [65] [] =
      (true, [] ++
        base64Encode (u64le 1 ++ u64le (List.length [65]) ++ u64le (List.length [65]) ++
          u64le (List.length [65])) ++
        base64Encode [65] ++ ['\n'])
    ∧ (u64le 1 ++ u64le (List.length [65]) ++ u64le (List.length [65]) ++
        u64le (List.length [65])).length = 32 :=
  write_data_output_format (fun l => some l) [65] [65] [] rfl

/-- C2: for every byte buffer, including the empty buffer, base64-decoding the
emitted header and payload segments succeeds and recovers the 4×uint64 header
and the deflated payload, and inflating the payload reproduces the original
buffer exactly.  The zlib backend is external, so its inflate/deflate pair
enters as parameters constrained by the round-trip law zlib guarantees. -/
theorem write_data_decode_inflate (deflate : List ℕ → Option (List ℕ))
    (inflate : List ℕ → List ℕ) (raw comp : List ℕ) (stream : List Char)
    (hzlib : ∀ b c, deflate b = some c → inflate c = b)
    (hbytes : ∀ x ∈ comp, x < 256) (hc : deflate raw = some comp) :
    write_data deflate raw stream =
      (true, stream ++
        base64Encode (u64le 1 ++ u64le raw.length ++ u64le raw.length ++ u64le comp.length) ++
        base64Encode comp ++ ['\n'])
    ∧ base64Decode
        (base64Encode (u64le 1 ++ u64le raw.length ++ u64le raw.length ++ u64le comp.length)) =
        some (u64le 1 ++ u64le raw.length ++ u64le raw.length ++ u64le comp.length)
    ∧ base64Decode (base64Encode comp) = some comp
    ∧ inflate comp = raw := by
  refine ⟨by simp [write_data, hc], ?_, ?_, hzlib raw comp hc⟩
  · apply base64_decode_encode
    intro x hx
    simp only [List.mem_append] at hx
    rcases hx with (h | h) | h
    · rcases h with h | h
      · exact u64le_lt 1 x h
      · exact u64le_lt raw.length x h
    · exact u64le_lt raw.length x h
    · exact u64le_lt comp.length x h
  · exact base64_decode_encode comp hbytes

/-- Witness for C2 at the empty buffer and an identity backend. -/
theorem write_data_decode_inflate_witness :
    write_data (fun b => some b) [] [] =
      (true, [] ++
        base64Encode (u64le 1 ++ u64le (List.length ([] : List ℕ)) ++
          u64le (List.length ([] : List ℕ)) ++ u64le (List.length ([] : List ℕ))) ++
        base64Encode [] ++ ['\n'])
    ∧ base64Decode
        (base64Encode (u64le 1 ++ u64le (List.length ([] : List ℕ)) ++
          u64le (List.length ([] : List ℕ)) ++ u64le (List.length ([] : List ℕ)))) =
        some (u64le 1 ++ u64le (List.length ([] : List ℕ)) ++
          u64le (List.length ([] : List ℕ)) ++ u64le (List.length ([] : List ℕ)))
    ∧ base64Decode (base64Encode ([] : List ℕ)) = some ([] : List ℕ)
    ∧ (fun c => c) ([] : List ℕ) = [] :=
  write_data_decode_inflate (fun b => some b) (fun c => c) [] [] []
    (fun b c h => (Option.some.inj h).symm) (by simp) rfl

/-- C9: if the compression backend fails while encoding an array, the encoder
raises an error (models the thrown `std::runtime_error`) and no byte of that
array's encoded output is written: the stream is returned exactly as it was,
so the current file's export is aborted with no partial data. -/
theorem write_data_compress_failure (compress : List ℕ → Option (List ℕ))
    (raw : List ℕ) (stream : List Char) (hc : compress raw = none) :
    write_data compress raw stream = (false, stream) := by
  simp [write_data, hc]

/-- Witness for C9 with an always-failing backend. -/
theorem write_data_compress_failure_witness :
    write_data (fun _ => none) [1, 2, 3] (lit "<CellData>") = (false, lit "<CellData>") :=
  write_data_compress_failure (fun _ => none) [1, 2, 3] (lit "<CellData>") rfl

/-- The read-only view of a grid block that the writers consume
(`block.basis().p`, `block.cell_grid().extents()`, `block.domain().lower()`,
`block.dx()`); the accessors live outside `src/`, so the view is a plain
record of their values.  Real arithmetic is modelled exactly over `ℚ`. -/
structure Block where
  p : ℕ
  cells : Fin 3 → ℕ
  lower : Fin 3 → ℚ
  dx : Fin 3 → ℚ

/-- Modelled from the spec: `max_p` (declared in the headers outside `src/`)
is 2 — the offset table is indexed by degree p ∈ {0,1,2}. -/
def max_p : ℕ := 2

/-- The fixed node-offset table of `write_coordinate` (dgt_vtk.cpp:174-178),
a `(max_p+1) × (max_p+1)` array. -/
def offsetTable : List (List ℚ) :=
  [[0, 0, 0],
   [0, 0, 0],
   [0, -2/9, 2/9]]

/-- `write_coordinate` (dgt_vtk.cpp:166-186): the loop that fills the per-axis
coordinate array, which is then handed to the encoder unconditionally.  The
code has no degree check: the subscript `offset[p][i % (p+1)]` on the 3×3
stack table is in bounds only for `p ≤ 2`; for a larger `p` it reads past the
table — undefined behavior, modelled by the parameter `oob` giving the
unspecified value such a stray read yields.  The loop runs to completion and
the array is emitted in every case. -/
def write_coordinate (oob : ℕ → ℕ → ℚ) (block : Block) (axis : Fin 3) : List ℚ :=
  let p := block.p
  let num_pts := (p + 1) * block.cells axis + 1
  let o := block.lower axis
  let dx := block.dx axis / ((p : ℚ) + 1)
  (List.range num_pts).map fun i =>
    let mod := i % (p + 1)
    let off := (offsetTable.getD p []).getD mod (oob p mod)
    o + (i : ℚ) * dx + off * dx

/-- C3: the claim says a degree outside {0,1,2} raises UnsupportedDegreeError
before any coordinate of the axis is emitted.  The code has no degree check
and no such error type: at degree 3 the subscript `offset[3][i % 4]` lies
past the end of the 3-row offset table (`offsetTable[3]?` is `none`: an
out-of-bounds read, undefined behavior), yet the loop still fills the full
`(3+1)*cells[axis]+1`-entry coordinate array — whatever values the stray
read yields — and the axis array is emitted. -/
theorem write_coordinate_degree3_no_failfast (oob : ℕ → ℕ → ℚ)
    (cells : Fin 3 → ℕ) (lower dx : Fin 3 → ℚ) (axis : Fin 3) :
    offsetTable[(3 : ℕ)]? = none
    ∧ (write_coordinate oob ⟨3, cells, lower, dx⟩ axis).length =
        (3 + 1) * cells axis + 1 := by
  constructor
  · rfl
  · simp [write_coordinate]

/-- The offset table exactly as the claim states it: rows p = 0 and p = 1 are
all zero, row p = 2 is {0, −2/9, 2/9}. -/
def claimOffset (p j : ℕ) : ℚ :=
  if p = 2 then (if j = 1 then -2/9 else if j = 2 then 2/9 else 0) else 0

/-- C4: for a block of degree p ∈ {0,1,2}, the coordinate array of an axis has
exactly `(p+1)*cells[axis]+1` entries and entry i equals
`domainLower[axis] + i*dx + offsetTable[p][i mod (p+1)]*dx` with
`dx = blockSpacing[axis]/(p+1)` — for every value `oob` of the out-of-bounds
read, since at these degrees every table access is in bounds. -/
theorem write_coordinate_values (oob : ℕ → ℕ → ℚ) (block : Block) (axis : Fin 3)
    (hp : block.p ∈ ([0, 1, 2] : List ℕ)) :
    write_coordinate oob block axis =
      (List.range ((block.p + 1) * block.cells axis + 1)).map fun (i : ℕ) =>
        block.lower axis + (i : ℚ) * (block.dx axis / ((block.p : ℚ) + 1)) +
          claimOffset block.p (i % (block.p + 1)) *
            (block.dx axis / ((block.p : ℚ) + 1)) := by
  simp only [write_coordinate]
  apply List.map_congr_left
  intro i _
  simp only [List.mem_cons, List.not_mem_nil, or_false] at hp
  rcases hp with h | h | h <;> rw [h]
  · have hm : i % (0 + 1) = 0 := Nat.mod_one i
    simp [offsetTable, claimOffset, hm]
  · have hm : i % (1 + 1) = 0 ∨ i % (1 + 1) = 1 := by omega
    rcases hm with hm | hm <;> simp [offsetTable, claimOffset, hm]
  · have hm : i % (2 + 1) = 0 ∨ i % (2 + 1) = 1 ∨ i % (2 + 1) = 2 := by omega
    rcases hm with hm | hm | hm <;> simp [offsetTable, claimOffset, hm]

/-- Witness for C4 at a degree-2 block with one cell per axis. -/
theorem write_coordinate_values_witness :
    write_coordinate (fun _ _ => 0) ⟨2, fun _ => 1, fun _ => 0, fun _ => 1⟩ 0 =
      (List.range (((⟨2, fun _ => 1, fun _ => 0, fun _ => 1⟩ : Block).p + 1) *
          (⟨2, fun _ => 1, fun _ => 0, fun _ => 1⟩ : Block).cells 0 + 1)).map fun (i : ℕ) =>
        (⟨2, fun _ => 1, fun _ => 0, fun _ => 1⟩ : Block).lower 0 +
          (i : ℚ) * ((⟨2, fun _ => 1, fun _ => 0, fun _ => 1⟩ : Block).dx 0 /
            (((⟨2, fun _ => 1, fun _ => 0, fun _ => 1⟩ : Block).p : ℚ) + 1)) +
          claimOffset (⟨2, fun _ => 1, fun _ => 0, fun _ => 1⟩ : Block).p
              (i % ((⟨2, fun _ => 1, fun _ => 0, fun _ => 1⟩ : Block).p + 1)) *
            ((⟨2, fun _ => 1, fun _ => 0, fun _ => 1⟩ : Block).dx 0 /
              (((⟨2, fun _ => 1, fun _ => 0, fun _ => 1⟩ : Block).p : ℚ) + 1)) :=
  write_coordinate_values (fun _ _ => 0) ⟨2, fun _ => 1, fun _ => 0, fun _ => 1⟩ 0 (by decide)

/-- `write_vtr_rectilinear_start` (dgt_vtk.cpp:30-40): the WholeExtent line,
with `n = (p+1) * cells.extents()`. -/
def write_vtr_rectilinear_start (block : Block) : List Char :=
  let n : Fin 3 → ℕ := fun ax => (block.p + 1) * block.cells ax
  lit "<RectilinearGrid WholeExtent=\"" ++
    lit "0 " ++ (Nat.repr (n 0)).data ++ lit " " ++
    lit "0 " ++ (Nat.repr (n 1)).data ++ lit " " ++
    lit "0 " ++ (Nat.repr (n 2)).data ++ lit "\">\n"

/-- `write_piece_start` (dgt_vtk.cpp:132-140): the Piece extent line, with the
same `n = (p+1) * cells.extents()`. -/
def write_piece_start (block : Block) : List Char :=
  let n : Fin 3 → ℕ := fun ax => (block.p + 1) * block.cells ax
  lit "<Piece Extent=\"" ++
    lit "0 " ++ (Nat.repr (n 0)).data ++ lit " " ++
    lit "0 " ++ (Nat.repr (n 1)).data ++ lit " " ++
    lit "0 " ++ (Nat.repr (n 2)).data ++ lit "\">\n"

/-- The extent string exactly as the claim states it:
`0 (p+1)nx 0 (p+1)ny 0 (p+1)nz`. -/
def claimExtent (p nx ny nz : ℕ) : List Char :=
  lit "0 " ++ (Nat.repr ((p + 1) * nx)).data ++
    lit " 0 " ++ (Nat.repr ((p + 1) * ny)).data ++
    lit " 0 " ++ (Nat.repr ((p + 1) * nz)).data

theorem space_zero_chunk (x : List Char) :
    (lit " ") ++ ((lit "0 ") ++ x) = (lit " 0 ") ++ x := rfl

/-- C8: for every block with cell grid (nx,ny,nz) and degree p, both the
WholeExtent of the RectilinearGrid element and the Piece extent equal
`0 (p+1)nx 0 (p+1)ny 0 (p+1)nz`. -/
theorem extent_formula (block : Block) :
    write_vtr_rectilinear_start block =
      lit "<RectilinearGrid WholeExtent=\"" ++
        claimExtent block.p (block.cells 0) (block.cells 1) (block.cells 2) ++ lit "\">\n"
    ∧ write_piece_start block =
      lit "<Piece Extent=\"" ++
        claimExtent block.p (block.cells 0) (block.cells 1) (block.cells 2) ++ lit "\">\n" := by
  constructor <;>
    simp [write_vtr_rectilinear_start, write_piece_start, claimExtent, List.append_assoc,
      space_zero_chunk]

/-- `write_vtm_header` / `write_vtm_end` (dgt_vtk.cpp:232-241). -/
def write_vtm_header : List Char :=
  lit "<VTKFile type=\"vtkMultiBlockDataSet\" " ++ lit "version=\"1.0\">\n" ++
    lit "<vtkMultiBlockDataSet>\n"

def write_vtm_end : List Char :=
  lit "</vtkMultiBlockDataSet>\n" ++ lit "</VTKFile>"

/-- `write_vtm_source_file` (dgt_vtk.cpp:243-249): one DataSet reference. -/
def write_vtm_source_file (i : ℕ) (file : List Char) : List Char :=
  lit "<DataSet index=\"" ++ (Nat.repr i).data ++ lit "\" " ++
    lit "file=\"" ++ file ++ lit "\"/>\n"

/-- The file name built in the loop of `write_vtm` (dgt_vtk.cpp:254):
`prefix + std::to_string(i) + ".vtr"`. -/
def vtm_file_name (pre : List Char) (i : ℕ) : List Char :=
  pre ++ (Nat.repr i).data ++ lit ".vtr"

/-- `write_vtm` (dgt_vtk.cpp:251-258): header, one DataSet reference per
block index `i ∈ [0, nblocks)` in loop order, footer. -/
def write_vtm (pre : List Char) (nblocks : ℕ) : List Char :=
  write_vtm_header ++
    ((List.range nblocks).flatMap fun i => write_vtm_source_file i (vtm_file_name pre i)) ++
    write_vtm_end

/-- C5 counterexample: for N = 3 and the prefix `out_`, the referenced file
names are `out_0.vtr`, `out_1.vtr`, `out_2.vtr` — not `out_0`, `out_1`,
`out_2` as the claim states — and the manifest text contains no reference
`file="out_0"`. -/
theorem write_vtm_names_counterexample :
    ((List.range 3).map fun i => vtm_file_name (lit "out_") i) =
      [lit "out_0.vtr", lit "out_1.vtr", lit "out_2.vtr"]
    ∧ ((List.range 3).map fun i => vtm_file_name (lit "out_") i) ≠
      [lit "out_0", lit "out_1", lit "out_2"]
    ∧ ¬ List.IsInfix (lit "file=\"out_0\"") (write_vtm (lit "out_") 3) := by
  refine ⟨by decide, by decide, by decide⟩

/-- C5 amended: the manifest emits exactly N DataSet references in sequential
0-based index order, and for N = 3 with prefix `out_` the referenced file
names are exactly `out_0.vtr`, `out_1.vtr`, `out_2.vtr` in that order. -/
theorem write_vtm_references (pre : List Char) (n i : ℕ) (hi : i < n) :
    write_vtm pre n =
      write_vtm_header ++
        ((List.range n).flatMap fun j => write_vtm_source_file j (vtm_file_name pre j)) ++
        write_vtm_end
    ∧ ((List.range n).map fun j => vtm_file_name pre j).length = n
    ∧ ((List.range n).map fun j => vtm_file_name pre j)[i]? =
        some (pre ++ (Nat.repr i).data ++ lit ".vtr")
    ∧ write_vtm (lit "out_") 3 =
        write_vtm_header ++
          (write_vtm_source_file 0 (lit "out_0.vtr") ++
            (write_vtm_source_file 1 (lit "out_1.vtr") ++
              write_vtm_source_file 2 (lit "out_2.vtr"))) ++
          write_vtm_end := by
  refine ⟨rfl, by simp, ?_, by decide⟩
  simp [List.getElem?_map, List.getElem?_range hi, vtm_file_name]

/-- Witness for C5's amended statement at prefix `a`, N = 1, index 0. -/
theorem write_vtm_references_witness :
    write_vtm (lit "a") 1 =
      write_vtm_header ++
        ((List.range 1).flatMap fun j => write_vtm_source_file j (vtm_file_name (lit "a") j)) ++
        write_vtm_end
    ∧ ((List.range 1).map fun j => vtm_file_name (lit "a") j).length = 1
    ∧ ((List.range 1).map fun j => vtm_file_name (lit "a") j)[0]? =
        some (lit "a" ++ (Nat.repr 0).data ++ lit ".vtr")
    ∧ write_vtm (lit "out_") 3 =
        write_vtm_header ++
          (write_vtm_source_file 0 (lit "out_0.vtr") ++
            (write_vtm_source_file 1 (lit "out_1.vtr") ++
              write_vtm_source_file 2 (lit "out_2.vtr"))) ++
          write_vtm_end :=
  write_vtm_references (lit "a") 1 0 (by decide)

/-- A tree position (`Point`): depth and integer ijk triple. -/
structure Point where
  depth : ℤ
  ijk : Fin 3 → ℤ

/-- An axis-aligned physical box (`p3a::box3<double>`), exact over `ℚ`. -/
structure Box3 where
  lower : Fin 3 → ℚ
  extents : Fin 3 → ℚ

/-- The fixed unit-cube corner table `vtk_corners` (dgt_vtk.cpp:303-312). -/
def vtk_corners : List (Fin 3 → ℚ) :=
  [![0, 0, 0], ![1, 0, 0], ![1, 1, 0], ![0, 1, 0],
   ![0, 0, 1], ![1, 0, 1], ![1, 1, 1], ![0, 1, 1]]

/-- One emitted corner: `o + hadamard_product(dx, corner)` (dgt_vtk.cpp:330). -/
def corner_point (box : Box3) (corner : Fin 3 → ℚ) : Fin 3 → ℚ :=
  fun ax => box.lower ax + box.extents ax * corner ax

/-- `write_tree_coords` (dgt_vtk.cpp:314-340): rows of the coordinates array,
one row per `(leaf, corner)` pair in traversal order.  `get_block_domain` is
an external geometry function, so it enters as the parameter `gbd`. -/
def write_tree_coords (gbd : Point → Point → Box3 → Box3) (base : Point)
    (leaves : List Point) (domain : Box3) (ncorners : ℕ) : List (Fin 3 → ℚ) :=
  leaves.flatMap fun leaf =>
    (List.range ncorners).map fun c =>
      corner_point (gbd base leaf domain) (vtk_corners.getD c ![0, 0, 0])

/-- The accumulator loop of `write_tree_offsets` (dgt_vtk.cpp:279-290):
`offset` starts at `nents` and grows by `nents` per cell. -/
def tree_offsets_loop : ℕ → ℤ → ℤ → List ℤ
  | 0, _, _ => []
  | n + 1, offset, nents => offset :: tree_offsets_loop n (offset + nents) nents

/-- `write_tree_offsets` (dgt_vtk.cpp:279-290). -/
def write_tree_offsets (num nents : ℕ) : List ℤ :=
  tree_offsets_loop num (nents : ℤ) (nents : ℤ)

/-- `write_tree_connectivity` (dgt_vtk.cpp:292-301): the identity sequence. -/
def write_tree_connectivity (npoints : ℕ) : List ℤ :=
  (List.range npoints).map fun (i : ℕ) => (i : ℤ)

/-- `write_tree_types` (dgt_vtk.cpp:266-277): one uniform cell-type code per
leaf, drawn from `vtk_types[] = {1,3,9,12}` at index `dim`. -/
def write_tree_types (dim num : ℕ) : List ℤ :=
  List.replicate num (([1, 3, 9, 12] : List ℤ).getD dim 0)

/-- `write_leaf_depths` (dgt_vtk.cpp:342-354). -/
def write_leaf_depths (leaves : List Point) : List ℤ :=
  leaves.map Point.depth

/-- `write_leaf_ijks` (dgt_vtk.cpp:356-371): row i is leaf i's ijk triple. -/
def write_leaf_ijks (leaves : List Point) : List (Fin 3 → ℤ) :=
  leaves.map Point.ijk

/-- The tree state `write_tree` reads: dimensionality, base point, and the
leaf sequence.  `collect_leaves` and `Tree::dim()` live outside `src/`;
modelled from the spec, `leaves` is the result of the one fixed,
deterministic traversal. -/
structure Tree where
  dim : ℕ
  base : Point
  leaves : List Point

/-- The six arrays `write_tree` emits for its single piece. -/
structure TreeArrays where
  types : List ℤ
  offsets : List ℤ
  connectivity : List ℤ
  coords : List (Fin 3 → ℚ)
  depths : List ℤ
  ijks : List (Fin 3 → ℤ)

/-- `write_tree` (dgt_vtk.cpp:373-406): collects the leaves once, sets
`ncorners = ipow(2, dim)` and `npoints = nleaves * ncorners`, and derives
every array from that one leaf sequence. -/
def write_tree (gbd : Point → Point → Box3 → Box3) (t : Tree) (domain : Box3) :
    TreeArrays :=
  let leaves := t.leaves
  let nleaves := leaves.length
  let ncorners := 2 ^ t.dim
  let npoints := nleaves * ncorners
  { types := write_tree_types t.dim nleaves
    offsets := write_tree_offsets nleaves ncorners
    connectivity := write_tree_connectivity npoints
    coords := write_tree_coords gbd t.base leaves domain ncorners
    depths := write_leaf_depths leaves
    ijks := write_leaf_ijks leaves }

theorem tree_offsets_loop_length (n : ℕ) (start step : ℤ) :
    (tree_offsets_loop n start step).length = n := by
  induction n generalizing start with
  | zero => rfl
  | succ m ih => simp [tree_offsets_loop, ih]

theorem tree_offsets_loop_getElem (n : ℕ) (start step : ℤ) (i : ℕ) (hi : i < n) :
    (tree_offsets_loop n start step)[i]? = some (start + (i : ℤ) * step) := by
  induction n generalizing start i with
  | zero => omega
  | succ m ih =>
      cases i with
      | zero => simp [tree_offsets_loop]
      | succ j =>
          rw [show tree_offsets_loop (m + 1) start step =
              start :: tree_offsets_loop m (start + step) step from rfl]
          rw [List.getElem?_cons_succ, ih (start + step) j (by omega)]
          congr 1
          push_cast
          ring

theorem flatMap_uniform_length {α β : Type} (f : α → List β) (n : ℕ)
    (hf : ∀ a, (f a).length = n) (l : List α) :
    (l.flatMap f).length = l.length * n := by
  induction l with
  | nil => simp
  | cons a t ih =>
      simp only [List.flatMap_cons, List.length_append, hf, ih, List.length_cons]
      ring

theorem flatMap_uniform_getElem {α β : Type} (f : α → List β) (n : ℕ)
    (hf : ∀ a, (f a).length = n) (l : List α) (i c : ℕ) (hi : i < l.length)
    (hc : c < n) :
    (l.flatMap f)[i * n + c]? = (f (l.get ⟨i, hi⟩))[c]? := by
  induction l generalizing i with
  | nil => cases hi
  | cons a t ih =>
      cases i with
      | zero =>
          simp only [List.flatMap_cons, Nat.zero_mul, Nat.zero_add]
          rw [List.getElem?_append_left (by rw [hf]; exact hc)]
          rfl
      | succ j =>
          have hidx : (j + 1) * n + c = (f a).length + (j * n + c) := by
            rw [hf]; ring
          rw [List.flatMap_cons, hidx, List.getElem?_append_right (by omega)]
          have : (f a).length + (j * n + c) - (f a).length = j * n + c := by omega
          rw [this, ih j (by simpa using hi)]
          rfl

/-- C6: every array `write_tree` derives from the single leaf traversal
indexes leaves identically: for the i-th leaf, entry i of `depth`, row i of
`ijk`, and the corner rows `i*c .. (i+1)*c - 1` of `coordinates` all describe
that same leaf. -/
theorem write_tree_arrays_aligned (gbd : Point → Point → Box3 → Box3) (t : Tree)
    (domain : Box3) (i c : ℕ) (leaf : Point)
    (hleaf : t.leaves[i]? = some leaf) (hc : c < 2 ^ t.dim) :
    (write_tree gbd t domain).depths[i]? = some leaf.depth
    ∧ (write_tree gbd t domain).ijks[i]? = some leaf.ijk
    ∧ (write_tree gbd t domain).coords[i * 2 ^ t.dim + c]? =
        some (corner_point (gbd t.base leaf domain) (vtk_corners.getD c ![0, 0, 0])) := by
  have hi : i < t.leaves.length := by
    by_contra hlt
    rw [List.getElem?_eq_none (by omega)] at hleaf
    exact Option.noConfusion hleaf
  have hget : t.leaves.get ⟨i, hi⟩ = leaf := by
    have := List.getElem?_eq_getElem hi
    rw [this] at hleaf
    exact Option.some.inj hleaf
  refine ⟨?_, ?_, ?_⟩
  · simp [write_tree, write_leaf_depths, List.getElem?_map, hleaf]
  · simp [write_tree, write_leaf_ijks, List.getElem?_map, hleaf]
  · show (write_tree_coords gbd t.base t.leaves domain (2 ^ t.dim))[i * 2 ^ t.dim + c]? = _
    unfold write_tree_coords
    rw [flatMap_uniform_getElem _ (2 ^ t.dim) (by simp) t.leaves i c hi hc, hget]
    simp [List.getElem?_map, List.getElem?_range hc]

/-- Witness for C6: a one-leaf 3D tree, leaf 0, corner 0. -/
theorem write_tree_arrays_aligned_witness :
    (write_tree (fun _ _ d => d) ⟨3, ⟨0, ![0, 0, 0]⟩, [⟨1, ![2, 3, 4]⟩]⟩
        ⟨fun _ => 0, fun _ => 1⟩).depths[0]? = some (Point.depth ⟨1, ![2, 3, 4]⟩)
    ∧ (write_tree (fun _ _ d => d) ⟨3, ⟨0, ![0, 0, 0]⟩, [⟨1, ![2, 3, 4]⟩]⟩
        ⟨fun _ => 0, fun _ => 1⟩).ijks[0]? = some (Point.ijk ⟨1, ![2, 3, 4]⟩)
    ∧ (write_tree (fun _ _ d => d) ⟨3, ⟨0, ![0, 0, 0]⟩, [⟨1, ![2, 3, 4]⟩]⟩
        ⟨fun _ => 0, fun _ => 1⟩).coords[0 * 2 ^ (3 : ℕ) + 0]? =
        some (corner_point ((fun _ _ d => d) (⟨0, ![0, 0, 0]⟩ : Point) (⟨1, ![2, 3, 4]⟩ : Point)
          (⟨fun _ => 0, fun _ => 1⟩ : Box3)) (vtk_corners.getD 0 ![0, 0, 0])) :=
  write_tree_arrays_aligned (fun _ _ d => d) ⟨3, ⟨0, ![0, 0, 0]⟩, [⟨1, ![2, 3, 4]⟩]⟩
    ⟨fun _ => 0, fun _ => 1⟩ 0 0 ⟨1, ![2, 3, 4]⟩ rfl (by norm_num)

/-- C7: for a 3D tree export with L leaves, `offsets` has L entries with
`offset[i] = (i+1)*8`, `connectivity` has 8L entries equal to the identity
sequence, and `coordinates` has 8L rows. -/
theorem write_tree_sizes_3d (gbd : Point → Point → Box3 → Box3) (t : Tree)
    (domain : Box3) (i j : ℕ) (hdim : t.dim = 3)
    (hi : i < t.leaves.length) (hj : j < 8 * t.leaves.length) :
    (write_tree gbd t domain).offsets.length = t.leaves.length
    ∧ (write_tree gbd t domain).offsets[i]? = some (((i : ℤ) + 1) * 8)
    ∧ (write_tree gbd t domain).connectivity.length = 8 * t.leaves.length
    ∧ (write_tree gbd t domain).connectivity[j]? = some ((j : ℤ))
    ∧ (write_tree gbd t domain).coords.length = 8 * t.leaves.length := by
  refine ⟨?_, ?_, ?_, ?_, ?_⟩
  · simp [write_tree, write_tree_offsets, tree_offsets_loop_length]
  · show (write_tree_offsets t.leaves.length (2 ^ t.dim))[i]? = _
    unfold write_tree_offsets
    rw [tree_offsets_loop_getElem _ _ _ i hi, hdim]
    congr 1
    push_cast
    ring
  · simp [write_tree, write_tree_connectivity, hdim]
    ring
  · show (write_tree_connectivity (t.leaves.length * 2 ^ t.dim))[j]? = _
    unfold write_tree_connectivity
    rw [List.getElem?_map, List.getElem?_range (by rw [hdim]; omega)]
    rfl
  · show (write_tree_coords gbd t.base t.leaves domain (2 ^ t.dim)).length = _
    unfold write_tree_coords
    rw [flatMap_uniform_length _ (2 ^ t.dim) (by simp) t.leaves, hdim]
    ring

/-- Witness for C7: a one-leaf 3D tree, i = 0, j = 0. -/
theorem write_tree_sizes_3d_witness :
    (write_tree (fun _ _ d => d) ⟨3, ⟨0, ![0, 0, 0]⟩, [⟨1, ![2, 3, 4]⟩]⟩
        ⟨fun _ => 0, fun _ => 1⟩).offsets.length = List.length [(⟨1, ![2, 3, 4]⟩ : Point)]
    ∧ (write_tree (fun _ _ d => d) ⟨3, ⟨0, ![0, 0, 0]⟩, [⟨1, ![2, 3, 4]⟩]⟩
        ⟨fun _ => 0, fun _ => 1⟩).offsets[0]? = some ((((0 : ℕ) : ℤ) + 1) * 8)
    ∧ (write_tree (fun _ _ d => d) ⟨3, ⟨0, ![0, 0, 0]⟩, [⟨1, ![2, 3, 4]⟩]⟩
        ⟨fun _ => 0, fun _ => 1⟩).connectivity.length =
        8 * List.length [(⟨1, ![2, 3, 4]⟩ : Point)]
    ∧ (write_tree (fun _ _ d => d) ⟨3, ⟨0, ![0, 0, 0]⟩, [⟨1, ![2, 3, 4]⟩]⟩
        ⟨fun _ => 0, fun _ => 1⟩).connectivity[0]? = some (((0 : ℕ) : ℤ))
    ∧ (write_tree (fun _ _ d => d) ⟨3, ⟨0, ![0, 0, 0]⟩, [⟨1, ![2, 3, 4]⟩]⟩
        ⟨fun _ => 0, fun _ => 1⟩).coords.length =
        8 * List.length [(⟨1, ![2, 3, 4]⟩ : Point)] :=
  write_tree_sizes_3d (fun _ _ d => d) ⟨3, ⟨0, ![0, 0, 0]⟩, [⟨1, ![2, 3, 4]⟩]⟩
    ⟨fun _ => 0, fun _ => 1⟩ 0 0 rfl (by norm_num) (by norm_num)

end DgtVtk
